import Mathlib

/-!
Verification development for the go-blockchain peer-to-peer core:
the UDP discovery transport (`discover` package, utils.go) and the TCP
gossip node (`dpos` package, node.go).

The stateful Go code is shallowly embedded: the single-owner control loop
`taskLoop` becomes a step function over an explicit state, channels become
logged signals, sockets become explicit read/send results, and the standard
library JSON codec (an external collaborator of this code) is abstracted as
a pair of encode/decode parameters.  Two data types of the repository
(`NodeID` and the routing-table `Node`) live in a source file that is not
available here; they are modelled from the specification and marked as such.

A faithfully modelled Go detail that matters below: `container/list.Remove`
nils the removed element's `next` pointer, so a `for pl := l.Front(); pl !=
nil; pl = pl.Next()` loop that removes the current element terminates right
after the removal.  Both loops inside `taskLoop` (the deadline sweep and the
reply scan) therefore stop at their first removal.
-/

namespace GoChain

namespace Discover

/-- A pending discovery request (`struct pending` in utils.go): request type
tag, deadline in unix seconds, and the match predicate.  The buffered result
channel `errch` is modelled by the signal log of the registry state; `id` is
a bookkeeping identity standing for the Go pointer identity of the struct. -/
structure PendingReq (α : Type) where
  id : Nat
  typ : UInt8
  deadline : Int
  callback : α → Bool

/-- Why a terminal signal was delivered on a request's result channel:
its predicate accepted a reply payload (`errch <- nil`), or the sweep found
its deadline past at time `now` (`errch <- errListTimeout`). -/
inductive Cause (α : Type) where
  | matched (data : α)
  | expired (now : Int)

/-- One delivery on a request's result channel: the request and the cause. -/
structure SignalRec (α : Type) where
  req : PendingReq α
  cause : Cause α

/-- The two kinds of events the `taskLoop` control loop services: a
registration arriving on the `pending` channel (`addPending`) and an inbound
reply arriving on the `gotreply` channel (`handleReply`). -/
inductive RegEvent (α : Type) where
  | register (typ : UInt8) (cb : α → Bool)
  | reply (typ : UInt8) (data : α)

/-- The state owned by `taskLoop`: the pending list `plist`, the next fresh
request identity, and the log of all signals ever delivered. -/
structure RegState (α : Type) where
  plist : List (PendingReq α)
  nextId : Nat
  log : List (SignalRec α)

variable {α : Type}

/-- The `listClear` closure of `taskLoop`: walk the list from the front and,
on the first element whose deadline is strictly before `t`, send the timeout
error and remove it.  Because `container/list.Remove` nils the element's
`next` pointer, the walk ends there: at most one element is removed per
sweep. -/
def listClear (t : Int) : List (PendingReq α) → List (PendingReq α) × List (SignalRec α)
  | [] => ([], [])
  | p :: rest =>
    if p.deadline < t then
      (rest, [⟨p, Cause.expired t⟩])
    else
      ((p :: (listClear t rest).1), (listClear t rest).2)

/-- The reply branch of `taskLoop`: walk the list from the front; when an
element has the reply's type and its callback accepts the payload, send nil
on its channel and remove it — which, as in `listClear`, ends the walk. -/
def replyScan (typ : UInt8) (d : α) : List (PendingReq α) → List (PendingReq α) × List (SignalRec α)
  | [] => ([], [])
  | p :: rest =>
    if typ == p.typ && p.callback d then
      (rest, [⟨p, Cause.matched d⟩])
    else
      ((p :: (replyScan typ d rest).1), (replyScan typ d rest).2)

/-- One iteration of `taskLoop` at time `t`: run `listClear`, then service
the event.  A registration gets deadline `t + 60` (one minute) and is pushed
at the back; a reply runs the scan and answers `matched`, which the Go code
sets to true whenever the loop body ran at least once, i.e. whenever the
swept list is nonempty — regardless of the reply's type. -/
def regStep (s : RegState α) (t : Int) (e : RegEvent α) : RegState α × Option Bool :=
  match e with
  | RegEvent.register typ cb =>
      ({ plist := (listClear t s.plist).1 ++ [⟨s.nextId, typ, t + 60, cb⟩],
         nextId := s.nextId + 1,
         log := s.log ++ (listClear t s.plist).2 }, none)
  | RegEvent.reply typ d =>
      ({ plist := (replyScan typ d (listClear t s.plist).1).1,
         nextId := s.nextId,
         log := s.log ++ (listClear t s.plist).2 ++ (replyScan typ d (listClear t s.plist).1).2 },
       some (!(listClear t s.plist).1.isEmpty))

/-- The initial `taskLoop` state: empty list, nothing signalled. -/
def regInit : RegState α := ⟨[], 0, []⟩

/-- Run `taskLoop` over a finite trace of timed events. -/
def runReg (tr : List (Int × RegEvent α)) : RegState α :=
  tr.foldl (fun s te => (regStep s te.1 te.2).1) regInit

/-- Identities of the requests in a pending list. -/
def pendIds (l : List (PendingReq α)) : List Nat := l.map (fun p => p.id)

/-- Identities of the requests a signal log has resolved. -/
def logIds (l : List (SignalRec α)) : List Nat := l.map (fun r => r.req.id)

/-- A signal is honest: a match signal really had an accepting callback, a
timeout signal really had a past deadline. -/
def causeOk (r : SignalRec α) : Prop :=
  match r.cause with
  | Cause.matched d => r.req.callback d = true
  | Cause.expired tm => r.req.deadline < tm

theorem listClear_count (t : Int) (l : List (PendingReq α)) (i : Nat) :
    (pendIds (listClear t l).1).count i + (logIds (listClear t l).2).count i
      = (pendIds l).count i := by
  induction l with
  | nil => simp [listClear, pendIds, logIds]
  | cons p rest ih =>
    by_cases h : p.deadline < t
    · simp only [listClear, if_pos h, pendIds, logIds, List.map, List.count_cons,
        List.count_nil, List.map_nil]
      omega
    · simp only [listClear, if_neg h, pendIds, logIds, List.map, List.count_cons] at *
      omega

theorem replyScan_count (typ : UInt8) (d : α) (l : List (PendingReq α)) (i : Nat) :
    (pendIds (replyScan typ d l).1).count i + (logIds (replyScan typ d l).2).count i
      = (pendIds l).count i := by
  induction l with
  | nil => simp [replyScan, pendIds, logIds]
  | cons p rest ih =>
    by_cases h : typ == p.typ && p.callback d
    · simp only [replyScan, if_pos h, pendIds, logIds, List.map, List.count_cons,
        List.count_nil, List.map_nil]
      omega
    · simp only [replyScan, if_neg h, pendIds, logIds, List.map, List.count_cons] at *
      omega

theorem listClear_sigs (t : Int) (l : List (PendingReq α)) :
    ∀ r ∈ (listClear t l).2, causeOk r := by
  induction l with
  | nil => simp [listClear]
  | cons p rest ih =>
    by_cases h : p.deadline < t
    · simp only [listClear, if_pos h, List.mem_singleton]
      intro r hr
      subst hr
      simpa [causeOk] using h
    · simpa [listClear, if_neg h] using ih

theorem replyScan_sigs (typ : UInt8) (d : α) (l : List (PendingReq α)) :
    ∀ r ∈ (replyScan typ d l).2, causeOk r := by
  induction l with
  | nil => simp [replyScan]
  | cons p rest ih =>
    simp only [replyScan]
    split
    next h =>
      intro r hr
      simp only [List.mem_singleton] at hr
      subst hr
      simp only [Bool.and_eq_true, beq_iff_eq] at h
      simpa [causeOk] using h.2
    next _ =>
      simpa using ih

/-- The exactly-once invariant of the registry state: every registered
identity occurs exactly once across the pending list and the signal log, and
every logged signal is honest. -/
def RegInv (s : RegState α) : Prop :=
  (∀ i : Nat, (pendIds s.plist).count i + (logIds s.log).count i
      = if i < s.nextId then 1 else 0) ∧
  (∀ r ∈ s.log, causeOk r)

theorem regStep_inv (s : RegState α) (t : Int) (e : RegEvent α) :
    RegInv s → RegInv (regStep s t e).1 := by
  intro hs
  obtain ⟨hcount, hlog⟩ := hs
  cases e with
  | register typ cb =>
    constructor
    · intro i
      have hc := listClear_count t s.plist i
      have h0 := hcount i
      have e1 : pendIds ((listClear t s.plist).1 ++ [(⟨s.nextId, typ, t + 60, cb⟩ : PendingReq α)])
          = pendIds (listClear t s.plist).1 ++ [s.nextId] := by
        simp [pendIds]
      have e2 : logIds (s.log ++ (listClear t s.plist).2)
          = logIds s.log ++ logIds (listClear t s.plist).2 := by
        simp [logIds]
      simp only [regStep, e1, e2, List.count_append]
      have e3 : List.count i [s.nextId] = if i = s.nextId then 1 else 0 := by
        by_cases hi : i = s.nextId
        · subst hi; simp
        · simp [List.count_cons, hi]
      rw [e3]
      split_ifs at h0 ⊢ <;> omega
    · intro r hr
      simp only [regStep, List.mem_append] at hr
      rcases hr with hr | hr
      · exact hlog r hr
      · exact listClear_sigs t s.plist r hr
  | reply typ d =>
    constructor
    · intro i
      have hc := listClear_count t s.plist i
      have hr := replyScan_count typ d (listClear t s.plist).1 i
      have h0 := hcount i
      have e2 : logIds (s.log ++ (listClear t s.plist).2 ++ (replyScan typ d (listClear t s.plist).1).2)
          = logIds s.log ++ logIds (listClear t s.plist).2
            ++ logIds (replyScan typ d (listClear t s.plist).1).2 := by
        simp [logIds]
      simp only [regStep, e2, List.count_append]
      split_ifs at h0 ⊢ <;> omega
    · intro r hr
      simp only [regStep, List.mem_append] at hr
      rcases hr with (hr | hr) | hr
      · exact hlog r hr
      · exact listClear_sigs t s.plist r hr
      · exact replyScan_sigs typ d _ r hr

theorem runReg_inv (tr : List (Int × RegEvent α)) : RegInv (runReg tr) := by
  have h : ∀ (s : RegState α), RegInv s →
      RegInv (tr.foldl (fun s te => (regStep s te.1 te.2).1) s) := by
    induction tr with
    | nil => intro s hs; simpa using hs
    | cons te rest ih =>
      intro s hs
      exact ih _ (regStep_inv s te.1 te.2 hs)
  apply h
  constructor
  · intro i
    simp [regInit, pendIds, logIds]
  · intro r hr
    simp [regInit] at hr

theorem replyScan_eraseP (typ : UInt8) (d : α) (l : List (PendingReq α)) :
    (replyScan typ d l).1 = l.eraseP (fun p => typ == p.typ && p.callback d) ∧
    (replyScan typ d l).2
      = ((l.find? (fun p => typ == p.typ && p.callback d)).map
          (fun p => (⟨p, Cause.matched d⟩ : SignalRec α))).toList := by
  induction l with
  | nil => simp [replyScan]
  | cons p rest ih =>
    by_cases h : (typ == p.typ && p.callback d) = true
    · constructor
      · simp [replyScan, h, List.eraseP_cons]
      · simp [replyScan, h, List.find?_cons_of_pos]
    · constructor
      · simp [replyScan, h, List.eraseP_cons, ih.1]
      · simp [replyScan, h, List.find?_cons_of_neg, ih.2]

/-- C1: every pending request registered with the `taskLoop` registry is
resolved at most once and never silently dropped.  Over any finite event
trace, each registered request identity appears exactly once across the
pending list and the signal log together — so no request is ever signalled
twice, and none is removed from the list without a signal on its result
channel — and every logged signal is a genuine terminal result: success only
when the request's match predicate accepted the delivered reply payload,
timeout only when the request's deadline had passed at sweep time. -/
theorem pending_resolved_exactly_once (α : Type) (tr : List (Int × RegEvent α)) :
    (∀ i : Nat, (pendIds (runReg tr).plist).count i + (logIds (runReg tr).log).count i
        = if i < (runReg tr).nextId then 1 else 0) ∧
    (∀ r ∈ (runReg tr).log, causeOk r) :=
  runReg_inv tr

def cbW : Unit → Bool := fun _ => true

def trW : List (Int × RegEvent Unit) :=
  [(0, RegEvent.register 1 cbW), (0, RegEvent.reply 1 ())]

def recW : SignalRec Unit := ⟨⟨0, 1, 0 + 60, cbW⟩, Cause.matched ()⟩

/-- Witness for C1: on the concrete trace that registers one type-1 request
and then delivers one accepted type-1 reply, the request's identity is
counted exactly once across list and log, and the logged success signal is
honest. -/
theorem pending_resolved_exactly_once_witness :
    (pendIds (runReg trW).plist).count 0 + (logIds (runReg trW).log).count 0 = 1 ∧
    causeOk recW := by
  have h := pending_resolved_exactly_once Unit trW
  constructor
  · have h1 := h.1 0
    have hn : (runReg trW).nextId = 1 := rfl
    rw [hn] at h1
    simpa using h1
  · have e : (runReg trW).log = [recW] := rfl
    exact h.2 recW (by rw [e]; exact List.Mem.head _)

def trC2 : List (Int × RegEvent Unit) := [(0, RegEvent.register 1 cbW)]

def trC2Two : List (Int × RegEvent Unit) :=
  [(0, RegEvent.register 1 cbW), (0, RegEvent.register 1 cbW)]

/-- C2 counterexample.  The claim says `deliver` examines all outstanding
requests of the reply's type and answers true iff at least one outstanding
request of that same type existed.  Both parts fail on the code: (i) with a
single outstanding type-1 request, delivering a type-4 reply still answers
true, although no type-4 request exists; (ii) with two outstanding type-1
requests whose predicates accept everything, delivering a type-1 reply
resolves only the first — the second survives unexamined because removing a
list element nils its next pointer and ends the loop. -/
theorem deliver_matched_without_same_type :
    ((regStep (runReg trC2) 0 (RegEvent.reply 4 ())).2 = some true)
    ∧ ((runReg trC2).plist.filter (fun p => p.typ == 4) = [])
    ∧ (logIds (regStep (runReg trC2Two) 0 (RegEvent.reply 1 ())).1.log = [0])
    ∧ (pendIds (regStep (runReg trC2Two) 0 (RegEvent.reply 1 ())).1.plist = [1]) :=
  ⟨rfl, rfl, rfl, rfl⟩

/-- C2 amended: for every inbound reply event, the control loop scans the
swept pending list in registration order and resolves (success signal,
removal) exactly the first request of the reply's type whose predicate
accepts the payload, stopping the scan there — requests after it, same-typed
or not, are left untouched; and the boolean `matched` result is true iff the
swept list was nonempty at delivery time, i.e. iff at least one outstanding
request of ANY type existed, regardless of the reply's type. -/
theorem deliver_matched_iff_any_outstanding (s : RegState α) (t : Int) (typ : UInt8) (d : α) :
    ((regStep s t (RegEvent.reply typ d)).2 = some true ↔ (listClear t s.plist).1 ≠ []) ∧
    ((regStep s t (RegEvent.reply typ d)).1.plist
        = (listClear t s.plist).1.eraseP (fun p => typ == p.typ && p.callback d)) ∧
    ((replyScan typ d (listClear t s.plist).1).2
        = (((listClear t s.plist).1.find? (fun p => typ == p.typ && p.callback d)).map
            (fun p => (⟨p, Cause.matched d⟩ : SignalRec α))).toList) := by
  refine ⟨?_, ?_, ?_⟩
  · simp only [regStep, Option.some_inj, Bool.not_eq_true']
    constructor
    · intro h
      simpa [List.isEmpty_iff] using h
    · intro h
      simpa [List.isEmpty_iff] using h
  · simpa [regStep] using (replyScan_eraseP typ d (listClear t s.plist).1).1
  · exact (replyScan_eraseP typ d (listClear t s.plist).1).2

def trC3 : List (Int × RegEvent Unit) :=
  [(0, RegEvent.register 1 cbW), (0, RegEvent.register 2 cbW)]

/-- C3 counterexample.  The claim says that before servicing each event,
EVERY pending request whose deadline has passed is resolved and removed, so
that no expired request remains after the sweep.  On the code, after two
requests are registered at time 0 (deadline 60 each) and an unrelated event
is serviced at time 100, the sweep removes and times out only the first
request (identity 0); the second expired request (deadline 60 < 100) is
still in the list. -/
theorem sweep_leaves_expired_request :
    ((regStep (runReg trC3) 100 (RegEvent.reply 9 ())).1.plist.map (fun p => p.deadline)
        = [0 + 60])
    ∧ ((0 : Int) + 60 < 100)
    ∧ (logIds (regStep (runReg trC3) 100 (RegEvent.reply 9 ())).1.log = [0]) :=
  ⟨rfl, by decide, rfl⟩

/-- C3 amended: before servicing each event the loop sweeps the pending
list, resolving with a timeout error and removing the FIRST request whose
deadline has already passed — and stops there, because removing the element
nils its next pointer and terminates the iteration.  At most one expired
request is resolved per sweep; expired requests after the first removed one
remain in the list until subsequent sweeps. -/
theorem sweep_removes_first_expired_only (t : Int) (l : List (PendingReq α)) :
    (listClear t l).1 = l.eraseP (fun p => decide (p.deadline < t)) ∧
    (listClear t l).2
      = ((l.find? (fun p => decide (p.deadline < t))).map
          (fun p => (⟨p, Cause.expired t⟩ : SignalRec α))).toList := by
  induction l with
  | nil => simp [listClear]
  | cons p rest ih =>
    by_cases h : p.deadline < t
    · constructor
      · simp [listClear, h, List.eraseP_cons]
      · simp [listClear, h, List.find?_cons_of_pos]
    · constructor
      · simp [listClear, h, List.eraseP_cons, ih.1]
      · simp [listClear, h, List.find?_cons_of_neg, ih.2]

/-- A discovery endpoint (utils.go `endpoint`): IP bytes and two ports. -/
structure Endpoint where
  IP : List UInt8
  UDP : Int
  TCP : Int
deriving DecidableEq, Repr

/-- Modelled from the spec: the routing-table `Node` (defined in the
repository's table source file, which is not under src/).  Per the spec a
node is a peer record with an identity and endpoint data; its external
`Validate` check is abstracted as a boolean predicate parameter where
needed. -/
structure Node where
  ID : List UInt8
  IP : List UInt8
  UDP : Int
  TCP : Int
deriving DecidableEq, Repr

/-- utils.go `ping` packet payload. -/
structure PingPkt where
  From : Endpoint
  To : Endpoint
  Expire : Int
deriving DecidableEq, Repr

/-- utils.go `pong` packet payload. -/
structure PongPkt where
  To : Endpoint
  Expire : Int
deriving DecidableEq, Repr

/-- utils.go `findnode` packet payload. -/
structure FindnodePkt where
  FromID : String
  Expire : Int
deriving DecidableEq, Repr

/-- utils.go `replynode` packet payload. -/
structure ReplynodePkt where
  Nodes : List Node
  Expire : Int
deriving DecidableEq, Repr

/-- The closed set of discovery packet variants dispatched by the type
byte. -/
inductive DiscPacket where
  | ping (p : PingPkt)
  | pong (p : PongPkt)
  | findnode (p : FindnodePkt)
  | replynode (p : ReplynodePkt)
deriving DecidableEq, Repr

/-- The wire type tag of each variant, following the iota block of utils.go
(ping=1, pong=2, findnode=3, replynode=4). -/
def DiscPacket.ptype : DiscPacket → UInt8
  | DiscPacket.ping _ => 1
  | DiscPacket.pong _ => 2
  | DiscPacket.findnode _ => 3
  | DiscPacket.replynode _ => 4

/-- `expirationTime` from utils.go, in seconds. -/
def expirationTime : Int := 30

/-- `expire` from utils.go — exactly as written in the source: it ignores
its timestamp argument (named `ts` there) and returns false, so no packet is
ever treated as expired. -/
def expire (_ts : Int) : Bool := false

def zeroEndpoint : Endpoint := ⟨[], 0, 0⟩

/-- `ping.handle` from utils.go: if `expire(p.Expire)` it returns the error
`ping:timeout` and sends nothing; otherwise it builds a pong whose expiry is
now + 30s (its `To` field left at the zero value) and sends it.  The result
models the returned error or the pong handed to `sendMessage`. -/
def pingHandle (now : Int) (p : PingPkt) : Except String PongPkt :=
  if expire p.Expire then Except.error "ping:timeout"
  else Except.ok { To := zeroEndpoint, Expire := now + expirationTime }

/-- C5: the claim says a ping whose expiry has passed is dropped with an
expiry error and no pong is sent.  The code's guard exists in `ping.handle`
but its predicate `expire` never compares the timestamp to the clock, so the
guard can never fire: a ping with Expire = 0 handled at time 100 (long past
expiry) is still answered with a pong and no error is returned. -/
theorem ping_expired_still_replied :
    expire 0 = false ∧
    pingHandle 100 { From := zeroEndpoint, To := zeroEndpoint, Expire := 0 }
      = Except.ok { To := zeroEndpoint, Expire := 130 } ∧
    ((0 : Int) < 100) :=
  ⟨rfl, rfl, by decide⟩

/-- `encodePacket` from utils.go: one type byte, then the 16 identity bytes,
then the serialized payload.  The standard-library JSON encoder is an
external collaborator and is abstracted as the parameter `enc`. -/
def encodePacket (enc : DiscPacket → List UInt8) (id : List UInt8) (typ : UInt8)
    (pack : DiscPacket) : List UInt8 :=
  typ :: (id ++ enc pack)

/-- Outcome of `decodePacket`: a runtime panic (out-of-range indexing), an
error return, or a decoded packet with the sender identity. -/
inductive DecodeResult where
  | panicOut
  | errRes
  | okRes (pack : DiscPacket) (fromID : List UInt8)
deriving DecidableEq, Repr

/-- `decodePacket` from utils.go.  `buf[0]` panics on an empty buffer and
the slice expression `buf[1:17]` panics whenever the buffer holds fewer than
17 bytes, because the function performs no length check.  An unrecognized
type byte leaves the target `pack` nil, and the JSON decoder then returns an
error for any payload; a recognized type decodes `buf[17:]` into that
variant, failing with an error when deserialization fails.  The JSON layer
is abstracted as the parameter `dec`, selecting the variant by the type
byte. -/
def decodePacket (dec : UInt8 → List UInt8 → Option DiscPacket) (buf : List UInt8) :
    DecodeResult :=
  match buf with
  | [] => DecodeResult.panicOut
  | t :: rest =>
    if rest.length < 16 then DecodeResult.panicOut
    else if t == 1 || t == 2 || t == 3 || t == 4 then
      match dec t (rest.drop 16) with
      | none => DecodeResult.errRes
      | some p => DecodeResult.okRes p (rest.take 16)
    else DecodeResult.errRes

def sampleEndpoint : Endpoint := ⟨[127, 0, 0, 1], 30303, 30304⟩

def samplePong : DiscPacket := DiscPacket.pong ⟨sampleEndpoint, 1700000000⟩

/-- A concrete stand-in for the abstract payload codec, used by witnesses. -/
def samplePayloadEnc : DiscPacket → List UInt8 :=
  fun p => if p = samplePong then [42] else [0]

/-- Concrete payload decoder matching `samplePayloadEnc` at `samplePong`. -/
def samplePayloadDec : UInt8 → List UInt8 → Option DiscPacket :=
  fun t bs => if t == 2 && bs == [42] then some samplePong else none

def sampleID : List UInt8 := List.replicate 16 7

/-- C6 counterexample: the claim says a buffer shorter than the minimum
17-byte header fails with a decode error and does not crash.  On the code,
decoding the empty buffer evaluates `buf[0]` out of range and panics — a
crash, not an error return. -/
theorem decode_short_buffer_panics :
    decodePacket samplePayloadDec [] = DecodeResult.panicOut
    ∧ DecodeResult.panicOut ≠ DecodeResult.errRes :=
  ⟨rfl, by decide⟩

/-- C6 amended: decoding fails with an error return — and does not crash —
when the type byte is unrecognized or when payload deserialization fails,
but a buffer shorter than the 17-byte minimum header (1 type byte + 16
identity bytes) makes `decodePacket` panic with an out-of-range index
instead of returning an error. -/
theorem decode_malformed_errors_or_panics (dec : UInt8 → List UInt8 → Option DiscPacket)
    (t : UInt8) (rest : List UInt8) :
    (decodePacket dec [] = DecodeResult.panicOut) ∧
    (rest.length < 16 → decodePacket dec (t :: rest) = DecodeResult.panicOut) ∧
    (16 ≤ rest.length → (t == 1 || t == 2 || t == 3 || t == 4) = false →
        decodePacket dec (t :: rest) = DecodeResult.errRes) ∧
    (16 ≤ rest.length → (t == 1 || t == 2 || t == 3 || t == 4) = true →
        dec t (rest.drop 16) = none →
        decodePacket dec (t :: rest) = DecodeResult.errRes) := by
  refine ⟨rfl, ?_, ?_, ?_⟩
  · intro h
    simp [decodePacket, h]
  · intro h ht
    simp [decodePacket, Nat.not_lt.mpr h, ht]
  · intro h ht hd
    simp [decodePacket, Nat.not_lt.mpr h, ht, hd]

def junk16 : List UInt8 := List.replicate 16 0

/-- Witness for the amended C6 at concrete buffers: an unrecognized type
byte errors, a two-byte buffer panics, and a recognized type whose payload
fails to deserialize errors. -/
theorem decode_malformed_witness :
    decodePacket samplePayloadDec (9 :: junk16) = DecodeResult.errRes ∧
    decodePacket samplePayloadDec [1, 2] = DecodeResult.panicOut ∧
    decodePacket samplePayloadDec (1 :: junk16) = DecodeResult.errRes := by
  refine ⟨?_, ?_, ?_⟩
  · exact (decode_malformed_errors_or_panics samplePayloadDec 9 junk16).2.2.1
      (by decide) (by decide)
  · exact (decode_malformed_errors_or_panics samplePayloadDec 1 [2]).2.1 (by decide)
  · exact (decode_malformed_errors_or_panics samplePayloadDec 1 junk16).2.2.2
      (by decide) (by decide) (by decide)

/-- C7: encode-then-decode round-trip.  For every packet variant and every
16-byte sender identity, encoding with `encodePacket` and decoding with
`decodePacket` recovers the same packet and the same identity, given that
the abstracted payload codec (the standard-library JSON encoder/decoder in
the source) round-trips that packet's payload. -/
theorem encode_decode_roundtrip (enc : DiscPacket → List UInt8)
    (dec : UInt8 → List UInt8 → Option DiscPacket) (id : List UInt8) (pack : DiscPacket)
    (hid : id.length = 16) (hrt : dec pack.ptype (enc pack) = some pack) :
    decodePacket dec (encodePacket enc id pack.ptype pack)
      = DecodeResult.okRes pack id := by
  have hty : (pack.ptype == 1 || pack.ptype == 2 || pack.ptype == 3 || pack.ptype == 4)
      = true := by
    cases pack <;> rfl
  have hlen : ¬ (id ++ enc pack).length < 16 := by
    simp [List.length_append, hid]
  have hdrop : (id ++ enc pack).drop 16 = enc pack := by
    rw [← hid]
    exact List.drop_left id (enc pack)
  have htake : (id ++ enc pack).take 16 = id := by
    rw [← hid]
    exact List.take_left id (enc pack)
  simp only [encodePacket, decodePacket]
  rw [if_neg hlen, if_pos hty, hdrop, htake, hrt]

/-- Witness for C7 at a concrete pong packet, identity, and payload codec. -/
theorem encode_decode_roundtrip_witness :
    decodePacket samplePayloadDec
        (encodePacket samplePayloadEnc sampleID samplePong.ptype samplePong)
      = DecodeResult.okRes samplePong sampleID :=
  encode_decode_roundtrip samplePayloadEnc samplePayloadDec sampleID samplePong
    (by decide) (by decide)

/-- The accumulation loop inside findnode's registered callback: append
every node of the reply that passes the external Validate check. -/
def accumulateNodes (validate : Node → Bool) (acc : List Node) (ns : List Node) : List Node :=
  ns.foldl (fun a n => if validate n then a ++ [n] else a) acc

/-- The match predicate `udp.findnode` registers for replynode packets:
accumulate the reply's validated nodes, then report acceptance — it always
returns true. -/
def findnodeCallback (validate : Node → Bool) (acc : List Node) (rn : ReplynodePkt) :
    List Node × Bool :=
  (accumulateNodes validate acc rn.Nodes, true)

/-- How the registry resolves the pending request `findnode` blocks on:
a timeout error over its channel, or success after accepting one replynode
reply. -/
inductive FindnodeOutcome where
  | timeout
  | reply (rn : ReplynodePkt)

/-- `udp.findnode` from utils.go: on a timeout error it returns nil (the
empty sequence — the function has no error result); on success it returns
the nodes the callback accumulated from the single accepted reply. -/
def udpFindnode (validate : Node → Bool) : FindnodeOutcome → List Node
  | FindnodeOutcome.timeout => []
  | FindnodeOutcome.reply rn => (findnodeCallback validate [] rn).1

theorem accumulateNodes_eq_filter (validate : Node → Bool) (acc ns : List Node) :
    accumulateNodes validate acc ns = acc ++ ns.filter validate := by
  induction ns generalizing acc with
  | nil => simp [accumulateNodes]
  | cons n rest ih =>
    simp only [accumulateNodes, List.foldl_cons] at *
    by_cases h : validate n = true
    · rw [if_pos h, ih]
      simp [List.filter_cons, h]
    · rw [if_neg h, ih]
      simp [List.filter_cons, h]

/-- C9: findnode registers a replynode match whose predicate validates and
accumulates nodes and always reports acceptance; the blocking call returns
the validated subset of the accepted reply's nodes, and returns the empty
sequence — not an error — both when the registry resolves with a timeout
and when the responder reported zero nodes. -/
theorem findnode_returns_validated (validate : Node → Bool) :
    (udpFindnode validate FindnodeOutcome.timeout = []) ∧
    (∀ rn : ReplynodePkt, rn.Nodes = [] →
        udpFindnode validate (FindnodeOutcome.reply rn) = []) ∧
    (∀ rn : ReplynodePkt,
        udpFindnode validate (FindnodeOutcome.reply rn) = rn.Nodes.filter validate) ∧
    (∀ (acc : List Node) (rn : ReplynodePkt), (findnodeCallback validate acc rn).2 = true) := by
  refine ⟨rfl, ?_, ?_, ?_⟩
  · intro rn h
    simp [udpFindnode, findnodeCallback, accumulateNodes_eq_filter, h]
  · intro rn
    simp [udpFindnode, findnodeCallback, accumulateNodes_eq_filter]
  · intro acc rn
    rfl

def sampleGoodNode : Node := ⟨sampleID, [127, 0, 0, 1], 1, 2⟩

def sampleBadNode : Node := ⟨[], [], 0, 0⟩

def sampleValidate : Node → Bool := fun n => !n.ID.isEmpty

/-- Witness for C9: an empty reply yields the empty sequence, and a mixed
reply yields exactly its validated nodes. -/
theorem findnode_returns_validated_witness :
    udpFindnode sampleValidate (FindnodeOutcome.reply ⟨[], 0⟩) = [] ∧
    udpFindnode sampleValidate (FindnodeOutcome.reply ⟨[sampleGoodNode, sampleBadNode], 0⟩)
      = [sampleGoodNode] := by
  constructor
  · exact (findnode_returns_validated sampleValidate).2.1 ⟨[], 0⟩ rfl
  · have h := (findnode_returns_validated sampleValidate).2.2.1
      ⟨[sampleGoodNode, sampleBadNode], 0⟩
    rw [h]
    decide

end Discover

namespace Dpos

/-- node.go gossip `message`: type tag, sender identity, opaque payload. -/
structure Message where
  MsgTyp : UInt8
  ID : String
  Data : List UInt8
deriving DecidableEq, Repr

/-- Message type tags from the node.go iota block. -/
def packReqGetID : UInt8 := 1

def packRspGetID : UInt8 := 2

/-- What reading the handshake response from the TCP socket produced. -/
inductive ReadOutcome where
  | readErr
  | bytes (bs : List UInt8)

/-- `Node.handshake` (initiator side) from node.go, as a function of the
received response; the JSON layer of `decodeMsg` is abstracted as `dec`.
This translates the source faithfully, including its `return "", nil` when
the response fails to decode: a malformed response yields a SUCCESSFUL
handshake carrying the empty peer identity, not an error. -/
def handshake (dec : List UInt8 → Option Message) (res : ReadOutcome) :
    Except String String :=
  match res with
  | ReadOutcome.readErr => Except.error "read error"
  | ReadOutcome.bytes bs =>
    match dec bs with
    | none => Except.ok ""
    | some rsp =>
      if rsp.MsgTyp != packRspGetID then Except.error "invalid response id"
      else Except.ok rsp.ID

/-- A pool entry (node.go `connection`): inbound read socket, outbound
write socket, their flags, and the broadcast subscription channel.  Sockets
and channels are named by numbers. -/
structure Connection where
  read : Option Nat
  readable : Bool
  write : Option Nat
  writable : Bool
  broadcast : Nat
deriving DecidableEq, Repr

/-- The pool's map from peer identity to entry (node.go `connPool.set`).
The mutex serializes adds, so the model applies them sequentially. -/
def Pool : Type := String → Option Connection

def emptyPool : Pool := fun _ => none

/-- The per-entry computation of `connPool.add`: look up or create the
entry — a fresh broadcast channel is made only at creation — then set the
read side if ctyp = 1 and the write side if ctyp = 2.  `fresh` names the
next unused channel; the second component is the channel supply after the
add. -/
def addEntry (e : Option Connection) (fresh : Nat) (ctyp : Int) (c : Nat) :
    Connection × Nat :=
  let crt := match e with
    | some conn => (conn, fresh)
    | none => ({ read := none, readable := false, write := none, writable := false,
                 broadcast := fresh }, fresh + 1)
  let conn1 := if ctyp = 1 then { crt.1 with read := some c, readable := true } else crt.1
  let conn2 := if ctyp = 2 then { conn1 with write := some c, writable := true } else conn1
  (conn2, crt.2)

/-- `connPool.add` from node.go: update the entry for `id` by `addEntry`
and store it back in the map. -/
def connPoolAdd (pool : Pool) (fresh : Nat) (id : String) (ctyp : Int) (c : Nat) :
    Pool × Nat :=
  (fun k => if k = id then some (addEntry (pool id) fresh ctyp c).1 else pool k,
   (addEntry (pool id) fresh ctyp c).2)

/-- The steps of `Node.connect` after a successful dial, from node.go: run
the handshake; on error, log and return — the connection is dropped and the
pool untouched; on success, add the write side to the pool under the learned
identity and subscribe it to the broadcast bus.  The Bool records whether a
pool entry was added. -/
def connectAfterDial (dec : List UInt8 → Option Message) (pool : Pool) (fresh : Nat)
    (sock : Nat) (res : ReadOutcome) : (Pool × Nat) × Bool :=
  match handshake dec res with
  | Except.error _ => ((pool, fresh), false)
  | Except.ok rid => (connPoolAdd pool fresh rid 2 sock, true)

def bytesToString (bs : List UInt8) : String :=
  String.mk (bs.map (fun b => Char.ofNat b.toNat))

/-- A concrete stand-in for the abstract JSON message codec, used to
evaluate the handshake at concrete inputs: `[typ, idLen, id bytes, data]`;
a buffer without the two header bytes, or shorter than its declared
identity, fails to decode. -/
def modelDecodeMsg : List UInt8 → Option Message
  | t :: n :: rest =>
    if rest.length < n.toNat then none
    else some ⟨t, bytesToString (rest.take n.toNat), rest.drop n.toNat⟩
  | _ => none

/-- C4 (code bug): the claim says a malformed or non-matching handshake
response fails with a handshake error and leaves no pool entry.  The
wrong-type half holds, but on a response that fails to decode the source
does `return "", nil` — so `handshake` reports success with the empty
identity, `connect` proceeds, and a write-side pool entry keyed by the
empty identity IS added.  Evaluated here at the undecodable response
byte `[255]` and, for the half that holds, at a decodable response whose
type tag is 3 instead of 2. -/
theorem handshake_malformed_adds_pool_entry :
    handshake modelDecodeMsg (ReadOutcome.bytes [255]) = Except.ok "" ∧
    (connectAfterDial modelDecodeMsg emptyPool 0 5 (ReadOutcome.bytes [255])).1.1 ""
      = some ⟨none, false, some 5, true, 0⟩ ∧
    (connectAfterDial modelDecodeMsg emptyPool 0 5 (ReadOutcome.bytes [255])).2 = true ∧
    handshake modelDecodeMsg (ReadOutcome.bytes [3, 0]) = Except.error "invalid response id" ∧
    (connectAfterDial modelDecodeMsg emptyPool 0 5 (ReadOutcome.bytes [3, 0])).2 = false := by
  refine ⟨rfl, by decide, rfl, rfl, rfl⟩

/-- One recorded call to `connPool.add`. -/
structure AddReq where
  id : String
  ctyp : Int
  sock : Nat
deriving DecidableEq, Repr

/-- Apply a sequence of `connPool.add` calls (the mutex serializes them). -/
def applyAdds (st : Pool × Nat) (adds : List AddReq) : Pool × Nat :=
  adds.foldl (fun s a => connPoolAdd s.1 s.2 a.id a.ctyp a.sock) st

/-- The socket installed by the last add of the given side for the given
identity, if any. -/
def lastSock (ctyp : Int) (id : String) (adds : List AddReq) : Option Nat :=
  adds.foldl (fun acc a => if a.id = id ∧ a.ctyp = ctyp then some a.sock else acc) none

def readOf : Option Connection → Option Nat
  | none => none
  | some c => c.read

def writeOf : Option Connection → Option Nat
  | none => none
  | some c => c.write

def readableOf : Option Connection → Bool
  | none => false
  | some c => c.readable

def writableOf : Option Connection → Bool
  | none => false
  | some c => c.writable

theorem addEntry_read (e : Option Connection) (f : Nat) (ctyp : Int) (c : Nat) :
    (addEntry e f ctyp c).1.read = if ctyp = 1 then some c else readOf e := by
  cases e <;> by_cases h1 : ctyp = 1 <;> by_cases h2 : ctyp = 2 <;>
    simp [addEntry, readOf, h1, h2]

theorem addEntry_readable (e : Option Connection) (f : Nat) (ctyp : Int) (c : Nat) :
    (addEntry e f ctyp c).1.readable = if ctyp = 1 then true else readableOf e := by
  cases e <;> by_cases h1 : ctyp = 1 <;> by_cases h2 : ctyp = 2 <;>
    simp [addEntry, readableOf, h1, h2]

theorem addEntry_write (e : Option Connection) (f : Nat) (ctyp : Int) (c : Nat) :
    (addEntry e f ctyp c).1.write = if ctyp = 2 then some c else writeOf e := by
  cases e <;> by_cases h1 : ctyp = 1 <;> by_cases h2 : ctyp = 2 <;>
    simp [addEntry, writeOf, h1, h2]

theorem addEntry_writable (e : Option Connection) (f : Nat) (ctyp : Int) (c : Nat) :
    (addEntry e f ctyp c).1.writable = if ctyp = 2 then true else writableOf e := by
  cases e <;> by_cases h1 : ctyp = 1 <;> by_cases h2 : ctyp = 2 <;>
    simp [addEntry, writableOf, h1, h2]

theorem addEntry_broadcast_some (conn : Connection) (f : Nat) (ctyp : Int) (c : Nat) :
    (addEntry (some conn) f ctyp c).1.broadcast = conn.broadcast := by
  by_cases h1 : ctyp = 1 <;> by_cases h2 : ctyp = 2 <;>
    simp [addEntry, h1, h2]

theorem connPoolAdd_entry (pool : Pool) (fresh : Nat) (aid : String) (ctyp : Int)
    (c : Nat) (id : String) :
    (connPoolAdd pool fresh aid ctyp c).1 id
      = if id = aid then some (addEntry (pool aid) fresh ctyp c).1 else pool id := by
  by_cases h : id = aid <;> simp [connPoolAdd, h]

theorem applyAdds_cons (st : Pool × Nat) (a : AddReq) (rest : List AddReq) :
    applyAdds st (a :: rest)
      = applyAdds (connPoolAdd st.1 st.2 a.id a.ctyp a.sock) rest := rfl

theorem applyAdds_read (adds : List AddReq) (st : Pool × Nat) (id : String) :
    readOf ((applyAdds st adds).1 id)
      = adds.foldl (fun acc a => if a.id = id ∧ a.ctyp = 1 then some a.sock else acc)
          (readOf (st.1 id)) := by
  induction adds generalizing st with
  | nil => rfl
  | cons a rest ih =>
    rw [applyAdds_cons, ih, List.foldl_cons]
    congr 1
    rw [connPoolAdd_entry]
    by_cases hk : id = a.id
    · subst hk
      rw [if_pos rfl]
      show (addEntry (st.1 a.id) st.2 a.ctyp a.sock).1.read = _
      rw [addEntry_read]
      by_cases h1 : a.ctyp = 1 <;> simp [h1]
    · rw [if_neg hk]
      have : ¬ (a.id = id ∧ a.ctyp = 1) := fun hc => hk hc.1.symm
      rw [if_neg this]

theorem applyAdds_write (adds : List AddReq) (st : Pool × Nat) (id : String) :
    writeOf ((applyAdds st adds).1 id)
      = adds.foldl (fun acc a => if a.id = id ∧ a.ctyp = 2 then some a.sock else acc)
          (writeOf (st.1 id)) := by
  induction adds generalizing st with
  | nil => rfl
  | cons a rest ih =>
    rw [applyAdds_cons, ih, List.foldl_cons]
    congr 1
    rw [connPoolAdd_entry]
    by_cases hk : id = a.id
    · subst hk
      rw [if_pos rfl]
      show (addEntry (st.1 a.id) st.2 a.ctyp a.sock).1.write = _
      rw [addEntry_write]
      by_cases h2 : a.ctyp = 2 <;> simp [h2]
    · rw [if_neg hk]
      have : ¬ (a.id = id ∧ a.ctyp = 2) := fun hc => hk hc.1.symm
      rw [if_neg this]

theorem applyAdds_readable (adds : List AddReq) (st : Pool × Nat) (id : String) :
    readableOf ((applyAdds st adds).1 id)
      = adds.foldl (fun b a => if a.id = id ∧ a.ctyp = 1 then true else b)
          (readableOf (st.1 id)) := by
  induction adds generalizing st with
  | nil => rfl
  | cons a rest ih =>
    rw [applyAdds_cons, ih, List.foldl_cons]
    congr 1
    rw [connPoolAdd_entry]
    by_cases hk : id = a.id
    · subst hk
      rw [if_pos rfl]
      show (addEntry (st.1 a.id) st.2 a.ctyp a.sock).1.readable = _
      rw [addEntry_readable]
      by_cases h1 : a.ctyp = 1 <;> simp [h1]
    · rw [if_neg hk]
      have : ¬ (a.id = id ∧ a.ctyp = 1) := fun hc => hk hc.1.symm
      rw [if_neg this]

theorem applyAdds_writable (adds : List AddReq) (st : Pool × Nat) (id : String) :
    writableOf ((applyAdds st adds).1 id)
      = adds.foldl (fun b a => if a.id = id ∧ a.ctyp = 2 then true else b)
          (writableOf (st.1 id)) := by
  induction adds generalizing st with
  | nil => rfl
  | cons a rest ih =>
    rw [applyAdds_cons, ih, List.foldl_cons]
    congr 1
    rw [connPoolAdd_entry]
    by_cases hk : id = a.id
    · subst hk
      rw [if_pos rfl]
      show (addEntry (st.1 a.id) st.2 a.ctyp a.sock).1.writable = _
      rw [addEntry_writable]
      by_cases h2 : a.ctyp = 2 <;> simp [h2]
    · rw [if_neg hk]
      have : ¬ (a.id = id ∧ a.ctyp = 2) := fun hc => hk hc.1.symm
      rw [if_neg this]

theorem foldl_lastwins_isSome (adds : List AddReq) (p : AddReq → Prop) [DecidablePred p]
    (o : Option Nat) :
    (adds.foldl (fun acc a => if p a then some a.sock else acc) o).isSome
      = adds.foldl (fun b a => if p a then true else b) o.isSome := by
  induction adds generalizing o with
  | nil => rfl
  | cons a rest ih =>
    by_cases h : p a
    · simp only [List.foldl_cons, if_pos h]
      exact ih (some a.sock)
    · simp only [List.foldl_cons, if_neg h]
      exact ih o

theorem applyAdds_isSome (adds : List AddReq) (st : Pool × Nat) (id : String) :
    ((applyAdds st adds).1 id).isSome
      = adds.foldl (fun b a => if a.id = id then true else b) ((st.1 id).isSome) := by
  induction adds generalizing st with
  | nil => rfl
  | cons a rest ih =>
    rw [applyAdds_cons, ih, List.foldl_cons]
    congr 1
    rw [connPoolAdd_entry]
    by_cases hk : id = a.id
    · subst hk
      rw [if_pos rfl, if_pos rfl]
      rfl
    · rw [if_neg hk]
      have : ¬ a.id = id := fun hc => hk hc.symm
      rw [if_neg this]

theorem foldl_set_true (adds : List AddReq) (p : AddReq → Prop) [DecidablePred p]
    (b : Bool) :
    adds.foldl (fun b a => if p a then true else b) b
      = (b || adds.any (fun a => decide (p a))) := by
  induction adds generalizing b with
  | nil => simp
  | cons a rest ih =>
    by_cases h : p a
    · simp only [List.foldl_cons, if_pos h, List.any_cons, decide_eq_true h]
      rw [ih]
      simp
    · simp only [List.foldl_cons, if_neg h, List.any_cons, decide_eq_false h]
      rw [ih]
      simp

theorem applyAdds_broadcast_stable (adds : List AddReq) (st : Pool × Nat) (id : String)
    (conn : Connection) (h : st.1 id = some conn) :
    ∃ c2 : Connection, (applyAdds st adds).1 id = some c2 ∧ c2.broadcast = conn.broadcast := by
  induction adds generalizing st conn with
  | nil => exact ⟨conn, h, rfl⟩
  | cons a rest ih =>
    rw [applyAdds_cons]
    by_cases hk : id = a.id
    · subst hk
      have hnew : (connPoolAdd st.1 st.2 a.id a.ctyp a.sock).1 a.id
          = some (addEntry (st.1 a.id) st.2 a.ctyp a.sock).1 := by
        rw [connPoolAdd_entry, if_pos rfl]
      obtain ⟨c2, hc2, hb⟩ := ih (connPoolAdd st.1 st.2 a.id a.ctyp a.sock)
        (addEntry (st.1 a.id) st.2 a.ctyp a.sock).1 hnew
      refine ⟨c2, hc2, ?_⟩
      rw [hb, h, addEntry_broadcast_some]
    · have hkeep : (connPoolAdd st.1 st.2 a.id a.ctyp a.sock).1 id = some conn := by
        rw [connPoolAdd_entry, if_neg hk, h]
      exact ih (connPoolAdd st.1 st.2 a.id a.ctyp a.sock) conn hkeep

/-- C8: any serialized sequence of `connPool.add` calls converges, for each
peer identity, on exactly one pool entry: the entry exists iff some add for
that identity occurred; its read socket and readable flag reflect exactly
the last inbound (ctyp = 1) add and its write socket and writable flag the
last outbound (ctyp = 2) add, so neither side is ever dropped by the other
side's add; and the entry's broadcast subscription channel is the one
created at the identity's first insertion — later adds never replace it. -/
theorem connPool_adds_converge (adds : List AddReq) (id : String) :
    (((applyAdds (emptyPool, 0) adds).1 id).isSome = true
        ↔ ∃ a ∈ adds, a.id = id) ∧
    (∀ c : Connection, (applyAdds (emptyPool, 0) adds).1 id = some c →
        c.read = lastSock 1 id adds
        ∧ c.readable = (lastSock 1 id adds).isSome
        ∧ c.write = lastSock 2 id adds
        ∧ c.writable = (lastSock 2 id adds).isSome) ∧
    (∀ (xs ys : List AddReq) (c1 c2 : Connection), adds = xs ++ ys →
        (applyAdds (emptyPool, 0) xs).1 id = some c1 →
        (applyAdds (emptyPool, 0) adds).1 id = some c2 →
        c2.broadcast = c1.broadcast) := by
  refine ⟨?_, ?_, ?_⟩
  · rw [applyAdds_isSome, foldl_set_true]
    show (false || _) = true ↔ _
    rw [Bool.false_or, List.any_eq_true]
    constructor
    · rintro ⟨a, ha, hp⟩
      exact ⟨a, ha, of_decide_eq_true hp⟩
    · rintro ⟨a, ha, hp⟩
      exact ⟨a, ha, decide_eq_true hp⟩
  · intro c hc
    have hr := applyAdds_read adds (emptyPool, 0) id
    have hw := applyAdds_write adds (emptyPool, 0) id
    have hrb := applyAdds_readable adds (emptyPool, 0) id
    have hwb := applyAdds_writable adds (emptyPool, 0) id
    rw [hc] at hr hw hrb hwb
    have hri : (lastSock 1 id adds).isSome
        = adds.foldl (fun b a => if a.id = id ∧ a.ctyp = 1 then true else b) false :=
      foldl_lastwins_isSome adds (fun a => a.id = id ∧ a.ctyp = 1) none
    have hwi : (lastSock 2 id adds).isSome
        = adds.foldl (fun b a => if a.id = id ∧ a.ctyp = 2 then true else b) false :=
      foldl_lastwins_isSome adds (fun a => a.id = id ∧ a.ctyp = 2) none
    exact ⟨hr, by rw [hri]; exact hrb, hw, by rw [hwi]; exact hwb⟩
  · intro xs ys c1 c2 hsplit h1 h2
    subst hsplit
    have happ : applyAdds (emptyPool, 0) (xs ++ ys)
        = applyAdds (applyAdds (emptyPool, 0) xs) ys := by
      simp [applyAdds, List.foldl_append]
    obtain ⟨c2w, hc2w, hbw⟩ :=
      applyAdds_broadcast_stable ys (applyAdds (emptyPool, 0) xs) id c1 h1
    rw [happ, hc2w] at h2
    injection h2 with h2e
    rw [← h2e]
    exact hbw

def addsW : List AddReq := [⟨"p1", 1, 5⟩, ⟨"p1", 2, 7⟩]

def connW : Connection := ⟨some 5, true, some 7, true, 0⟩

/-- Witness for C8: one inbound then one outbound add for identity p1 yield
an entry whose read side is socket 5, write side socket 7, both flags set,
and whose broadcast channel is the one created at the first insertion. -/
theorem connPool_adds_converge_witness :
    connW.read = lastSock 1 "p1" addsW
    ∧ connW.readable = (lastSock 1 "p1" addsW).isSome
    ∧ connW.write = lastSock 2 "p1" addsW
    ∧ connW.writable = (lastSock 2 "p1" addsW).isSome
    ∧ connW.broadcast = 0 := by
  have h := connPool_adds_converge addsW "p1"
  have he : (applyAdds (emptyPool, 0) addsW).1 "p1" = some connW := by decide
  have hp : (applyAdds (emptyPool, 0) [(⟨"p1", 1, 5⟩ : AddReq)]).1 "p1"
      = some (⟨some 5, true, none, false, 0⟩ : Connection) := by decide
  have hf := h.2.1 connW he
  have hb := h.2.2 [⟨"p1", 1, 5⟩] [⟨"p1", 2, 7⟩] ⟨some 5, true, none, false, 0⟩ connW
    rfl hp he
  exact ⟨hf.1, hf.2.1, hf.2.2.1, hf.2.2.2, hb⟩

/-- node.go `nodeInfo`: one configured peer. -/
structure NodeInfo where
  Index : Int
  ID : String
  Addr : String
deriving DecidableEq, Repr

/-- node.go `Config` (the dpos one): slot parameters and the static node
list. -/
structure DposConfig where
  ProduceBlockSlot : Nat
  ProduceBlocksByTurn : Nat
  Nodes : List NodeInfo
deriving DecidableEq, Repr

/-- How the index-handling prefix of `NewNode` can end: the explicit
`panic("invalid index: out of range")` of the guard, the runtime
out-of-range panic of `cfg.Nodes[idx]`, or the selected entry. -/
inductive NewNodeResult where
  | guardPanic
  | indexPanic
  | okNode (ninfo : NodeInfo)
deriving DecidableEq, Repr

/-- The index selection of `NewNode` from node.go: the guard panics only
when idx > len(cfg.Nodes); otherwise `cfg.Nodes[idx]` is evaluated, which
panics at runtime when idx is out of the slice's range (in particular at
idx = len, which the guard lets through) and otherwise yields the selected
nodeInfo, from which the rest of the constructor builds the Node. -/
def newNodeSelect (idx : Int) (cfg : DposConfig) : NewNodeResult :=
  if (cfg.Nodes.length : Int) < idx then NewNodeResult.guardPanic
  else if h : 0 ≤ idx ∧ idx < (cfg.Nodes.length : Int) then
    NewNodeResult.okNode (cfg.Nodes.get ⟨idx.toNat, by omega⟩)
  else NewNodeResult.indexPanic

/-- C10: NewNode's bounds guard is off by one.  For every configuration,
idx = len(cfg.Nodes) passes the guard (len > len is false) yet the element
access panics out of range; and for non-negative indices the construction
reaches the element exactly when idx < len — one stricter than the guard
enforces. -/
theorem newNode_guard_off_by_one (cfg : DposConfig) :
    newNodeSelect (cfg.Nodes.length : Int) cfg = NewNodeResult.indexPanic ∧
    ¬ ((cfg.Nodes.length : Int) < (cfg.Nodes.length : Int)) ∧
    (∀ idx : Int, 0 ≤ idx →
        ((∃ ninfo, newNodeSelect idx cfg = NewNodeResult.okNode ninfo)
          ↔ idx < (cfg.Nodes.length : Int))) := by
  refine ⟨?_, lt_irrefl _, ?_⟩
  · unfold newNodeSelect
    rw [if_neg (lt_irrefl _), dif_neg (by omega)]
  · intro idx h0
    constructor
    · rintro ⟨ninfo, hn⟩
      unfold newNodeSelect at hn
      by_cases hg : (cfg.Nodes.length : Int) < idx
      · rw [if_pos hg] at hn
        exact NewNodeResult.noConfusion hn
      · rw [if_neg hg] at hn
        by_cases hh : 0 ≤ idx ∧ idx < (cfg.Nodes.length : Int)
        · exact hh.2
        · rw [dif_neg hh] at hn
          exact NewNodeResult.noConfusion hn
    · intro hlt
      refine ⟨cfg.Nodes.get ⟨idx.toNat, by omega⟩, ?_⟩
      unfold newNodeSelect
      rw [if_neg (by omega), dif_pos ⟨h0, hlt⟩]

def ninfo0 : NodeInfo := ⟨0, "n0", "127.0.0.1:9000"⟩

def cfgW : DposConfig := ⟨1, 1, [ninfo0]⟩

/-- Witness for C10 at a one-node configuration: idx = 1 = len reaches the
out-of-range element access, while idx = 0 constructs from the configured
entry. -/
theorem newNode_guard_off_by_one_witness :
    newNodeSelect 1 cfgW = NewNodeResult.indexPanic ∧
    newNodeSelect 0 cfgW = NewNodeResult.okNode ninfo0 := by
  have h := newNode_guard_off_by_one cfgW
  refine ⟨h.1, ?_⟩
  obtain ⟨n, hn⟩ := (h.2.2 0 (by decide)).mpr (by decide)
  have heq : NewNodeResult.okNode n = NewNodeResult.okNode ninfo0 :=
    hn.symm.trans (by decide)
  injection heq with hni
  rw [hni] at hn
  exact hn

end Dpos

end GoChain
